import Mathlib

/-!
Shallow embedding of `scripts/doc_coverage.py`, a heuristic documentation
coverage scanner for JS/TS sources.  Python strings are modelled as
`List Char`; Python `re` word characters (`\w`) are modelled over the ASCII
identifier alphabet, which the spec fixes as the assumed alphabet
(spec section 9, "ASCII letters, underscore, digits after the first
character").  Python byte strings are modelled as `List Nat`.
-/

namespace DocCoverage

/-- Word character of the regex `\w` class (ASCII model): letter, digit or
underscore. -/
def isWordChar (c : Char) : Bool :=
  c.isAlpha || c.isDigit || c == '_'

/-- Start character of the identifier class `[A-Za-z_]`. -/
def isIdentStart (c : Char) : Bool :=
  c.isAlpha || c == '_'

/-- Whitespace of the regex `\s` class (ASCII model): space, tab, newline,
carriage return, vertical tab, form feed. -/
def pyIsSpace (c : Char) : Bool :=
  c == ' ' || c == '\t' || c == '\n' || c == '\r' || c == '\x0b' || c == '\x0c'

/-- Whether the character at index `i` of `t` is a word character; positions
outside the string count as non-word, matching how `\b` treats the ends of
the searched text. -/
def wordAt (t : List Char) (i : Nat) : Bool :=
  match t.get? i with
  | some c => isWordChar c
  | none => false

/-- The `\b` assertion of Python regexes at position `i` of `t`: the
word-character status changes between the previous character (non-word when
outside the text) and the character at `i`. -/
def boundaryAt (t : List Char) (i : Nat) : Bool :=
  (if i = 0 then false else wordAt t (i - 1)) != wordAt t i

/-- One candidate match of `re.search(rf"\b{re.escape(name)}\b", t)` at start
offset `i`: the escaped name matches only the literal `name`, so the pattern
matches at `i` iff `name` occurs literally at `i` with a word boundary on each
side. -/
def wholeWordAt (name t : List Char) (i : Nat) : Bool :=
  name.isPrefixOf (t.drop i) && boundaryAt t i && boundaryAt t (i + name.length)

/-- `is_documented(name, doc_text)` from `doc_coverage.py`: false on an empty
corpus, otherwise `bool(re.search(rf"\b{re.escape(name)}\b", doc_text))`,
i.e. whether the whole-word pattern matches at some start offset. -/
def is_documented (name doc_text : List Char) : Bool :=
  if doc_text.isEmpty then false
  else (List.range (doc_text.length + 1)).any (wholeWordAt name doc_text)

/-- `compute_coverage(names, doc_text)` from `doc_coverage.py`: form the set
of names (modelled by `List.dedup`), return `(0, 0)` when it is empty, else
the number of set members that are documented and the set's size. -/
def compute_coverage (names : List (List Char)) (doc_text : List Char) :
    Nat × Nat :=
  let names_set := names.dedup
  if names_set.isEmpty then (0, 0)
  else (names_set.countP (fun n => is_documented n doc_text), names_set.length)

/-! ### UTF-8 decoding, as performed by `Path.read_text`

`load_docs` decodes markdown files with `read_text(encoding="utf-8")`
(strict), while `main` decodes source files with
`read_text(encoding="utf-8", errors="ignore")`.  `utf8Units` models the
decoder's token stream: one `some c` per decoded character and one `none` per
error event, consuming the maximal valid subpart at each error as CPython's
UTF-8 codec does.  The error handler then turns the stream into a result:
strict fails on any `none`, ignore drops them. -/

/-- UTF-8 continuation byte `0x80..0xBF`. -/
def contB (b : Nat) : Bool :=
  0x80 ≤ b && b < 0xC0

/-- Fuelled worker of `utf8Units`: the fuel, one unit per consumed lead
byte, is set to the byte count by the wrapper, which always suffices since
every step consumes at least one byte. -/
def utf8UnitsGo : Nat → List Nat → List (Option Char)
  | 0, _ => []
  | _ + 1, [] => []
  | fuel + 1, b :: rest =>
    if b < 0x80 then some (Char.ofNat b) :: utf8UnitsGo fuel rest
    else if b < 0xC2 then none :: utf8UnitsGo fuel rest
    else if b < 0xE0 then
      match rest with
      | b2 :: rest2 =>
        if contB b2 then
          some (Char.ofNat ((b - 0xC0) * 0x40 + (b2 - 0x80))) ::
            utf8UnitsGo fuel rest2
        else none :: utf8UnitsGo fuel (b2 :: rest2)
      | [] => [none]
    else if b < 0xF0 then
      let lo2 := if b == 0xE0 then 0xA0 else 0x80
      let hi2 := if b == 0xED then 0xA0 else 0xC0
      match rest with
      | b2 :: rest2 =>
        if lo2 ≤ b2 && b2 < hi2 then
          match rest2 with
          | b3 :: rest3 =>
            if contB b3 then
              some (Char.ofNat
                ((b - 0xE0) * 0x1000 + (b2 - 0x80) * 0x40 + (b3 - 0x80))) ::
                utf8UnitsGo fuel rest3
            else none :: utf8UnitsGo fuel (b3 :: rest3)
          | [] => [none]
        else none :: utf8UnitsGo fuel (b2 :: rest2)
      | [] => [none]
    else if b < 0xF5 then
      let lo2 := if b == 0xF0 then 0x90 else 0x80
      let hi2 := if b == 0xF4 then 0x90 else 0xC0
      match rest with
      | b2 :: rest2 =>
        if lo2 ≤ b2 && b2 < hi2 then
          match rest2 with
          | b3 :: rest3 =>
            if contB b3 then
              match rest3 with
              | b4 :: rest4 =>
                if contB b4 then
                  some (Char.ofNat
                    ((b - 0xF0) * 0x40000 + (b2 - 0x80) * 0x1000 +
                      (b3 - 0x80) * 0x40 + (b4 - 0x80))) ::
                    utf8UnitsGo fuel rest4
                else none :: utf8UnitsGo fuel (b4 :: rest4)
              | [] => [none]
            else none :: utf8UnitsGo fuel (b3 :: rest3)
          | [] => [none]
        else none :: utf8UnitsGo fuel (b2 :: rest2)
      | [] => [none]
    else none :: utf8UnitsGo fuel rest

/-- Token stream of CPython's UTF-8 decoder over a byte sequence: `some c`
for each decoded scalar, `none` for each error event (maximal-subpart
consumption, surrogates and overlong forms rejected). -/
def utf8Units (bs : List Nat) : List (Option Char) :=
  utf8UnitsGo bs.length bs

/-- `read_text(encoding="utf-8", errors="ignore")`: error events are dropped,
decoding always succeeds on the remaining characters. -/
def read_text_ignore (bs : List Nat) : List Char :=
  (utf8Units bs).filterMap id

/-- `read_text(encoding="utf-8")` (strict): any error event raises
`UnicodeDecodeError`, modelled by `none`. -/
def read_text_strict (bs : List Nat) : Option (List Char) :=
  if (utf8Units bs).contains none then none else some (read_text_ignore bs)

/-- Strictly decode a list of files, failing if any file fails, as the read
loop of `load_docs` does. -/
def decodeAll : List (List Nat) → Option (List (List Char))
  | [] => some []
  | f :: fs =>
    match read_text_strict f, decodeAll fs with
    | some t, some ts => some (t :: ts)
    | _, _ => none

/-- The documentation root as `load_docs` observes it: whether the path
exists, and the byte contents of the markdown files `rglob("*.md")` yields
under it, in listing order. -/
structure DocRoot where
  root_exists : Bool
  mdFiles : List (List Nat)

/-- `load_docs(doc_root)` from `doc_coverage.py`: empty string when the root
does not exist, otherwise every markdown file is read strictly
(`read_text(encoding="utf-8")`) and the contents are joined with newlines; a
decode fault propagates (modelled by `Except.error`). -/
def load_docs (r : DocRoot) : Except Unit (List Char) :=
  if r.root_exists then
    match decodeAll r.mdFiles with
    | some ts => Except.ok (List.intercalate ['\n'] ts)
    | none => Except.error ()
  else Except.ok []

/-! ### The symbol extractor

`extract_symbols` runs one line-anchored regex for globals and five
free-floating regexes for functions over the whole file text.  Each regex is
embedded as a deterministic matcher (none of the six patterns needs
backtracking: every alternative starts with a distinct character and every
greedy repetition is followed by a character it can never absorb), and
`re.finditer`'s left-to-right non-overlapping scan is embedded by the fuelled
scanners below, which try a match at each allowed position and resume right
after a match's span. -/

/-- Match a literal character sequence, returning the remainder. -/
def matchLit : List Char → List Char → Option (List Char)
  | [], cs => some cs
  | l :: ls, c :: cs => if c == l then matchLit ls cs else none
  | _ :: _, [] => none

/-- `\s*`: drop the maximal run of whitespace. -/
def skipSpaces (cs : List Char) : List Char :=
  cs.dropWhile pyIsSpace

/-- `\s+`: require at least one whitespace character, then drop the maximal
run. -/
def skipSpaces1 (cs : List Char) : Option (List Char) :=
  match cs with
  | c :: rest => if pyIsSpace c then some (rest.dropWhile pyIsSpace) else none
  | [] => none

/-- `([A-Za-z_]\w*)`: capture the maximal identifier at the head, returning
the captured name and the remainder. -/
def takeIdent (cs : List Char) : Option (List Char × List Char) :=
  match cs with
  | c :: rest =>
    if isIdentStart c then
      some (c :: rest.takeWhile isWordChar, rest.dropWhile isWordChar)
    else none
  | [] => none

/-- The three declaration keywords of the globals pattern. -/
def kwDecls : List (List Char) :=
  ["const".toList, "let".toList, "var".toList]

/-- One attempt of the globals regex `(?:const|let|var)\s+([A-Za-z_]\w*)`
at the head of `cs` (the `^` anchor is enforced by the scanner): returns the
captured name and the remainder after the whole match. -/
def tryGlobal (cs : List Char) : Option (List Char × List Char) :=
  match matchLit ("const".toList) cs <|> matchLit ("let".toList) cs <|>
      matchLit ("var".toList) cs with
  | none => none
  | some r1 =>
    match skipSpaces1 r1 with
    | none => none
    | some r2 => takeIdent r2

/-- Function pattern 1, `\bfunction\s+([A-Za-z_]\w*)\s*\(`. -/
def tryFunctionDecl (cs : List Char) : Option (List Char × List Char) :=
  match matchLit ("function".toList) cs with
  | none => none
  | some r1 =>
    match skipSpaces1 r1 with
    | none => none
    | some r2 =>
      match takeIdent r2 with
      | none => none
      | some (name, r3) =>
        match skipSpaces r3 with
        | '(' :: r4 => some (name, r4)
        | _ => none

/-- Function pattern 2, `\b([A-Za-z_]\w*)\s*=\s*function\b`. -/
def tryAssignFunction (cs : List Char) : Option (List Char × List Char) :=
  match takeIdent cs with
  | none => none
  | some (name, r1) =>
    match skipSpaces r1 with
    | '=' :: r2 =>
      match matchLit ("function".toList) (skipSpaces r2) with
      | none => none
      | some r3 =>
        match r3 with
        | [] => some (name, [])
        | c :: _ => if isWordChar c then none else some (name, r3)
    | _ => none

/-- Function pattern 3, `\b([A-Za-z_]\w*)\s*=\s*async\s*\(`. -/
def tryAssignAsync (cs : List Char) : Option (List Char × List Char) :=
  match takeIdent cs with
  | none => none
  | some (name, r1) =>
    match skipSpaces r1 with
    | '=' :: r2 =>
      match matchLit ("async".toList) (skipSpaces r2) with
      | none => none
      | some r3 =>
        match skipSpaces r3 with
        | '(' :: r4 => some (name, r4)
        | _ => none
    | _ => none

/-- `\([^)]*\)\s*=>`: a parenthesised parameter list then an arrow token. -/
def matchParamsArrow (cs : List Char) : Option (List Char) :=
  match cs with
  | '(' :: r1 =>
    match r1.dropWhile (fun c => c != ')') with
    | ')' :: r2 =>
      match skipSpaces r2 with
      | '=' :: '>' :: r3 => some r3
      | _ => none
    | _ => none
  | _ => none

/-- Function pattern 4, `\b([A-Za-z_]\w*)\s*=\s*\([^)]*\)\s*=>`. -/
def tryAssignArrow (cs : List Char) : Option (List Char × List Char) :=
  match takeIdent cs with
  | none => none
  | some (name, r1) =>
    match skipSpaces r1 with
    | '=' :: r2 =>
      match matchParamsArrow (skipSpaces r2) with
      | none => none
      | some r3 => some (name, r3)
    | _ => none

/-- Function pattern 5,
`\b([A-Za-z_]\w*)\s*:\s*(?:async\s*)?\([^)]*\)\s*=>`.  The optional
`async\s*` is taken exactly when it is followed by `(`; when it is not, the
position falls back to requiring `(` directly, which then fails on the `a` of
`async`, matching the regex's backtracking. -/
def tryColonArrow (cs : List Char) : Option (List Char × List Char) :=
  match takeIdent cs with
  | none => none
  | some (name, r1) =>
    match skipSpaces r1 with
    | ':' :: r2 =>
      let r3 := skipSpaces r2
      let r4 :=
        match matchLit ("async".toList) r3 with
        | some ra =>
          let ra2 := skipSpaces ra
          if ra2.head? == some '(' then ra2 else r3
        | none => r3
      match matchParamsArrow r4 with
      | none => none
      | some r5 => some (name, r5)
    | _ => none

/-- Whether position `i` of `t` holds a newline. -/
def newlineAt (t : List Char) (i : Nat) : Bool :=
  t.get? i == some '\n'

/-- Fuelled scan of `re.finditer` for the `re.MULTILINE`-anchored globals
pattern: a match is attempted at the start of the text and after each
newline; after a match the scan resumes past its span, recomputing the
line-start flag from the last consumed character.  The fuel (one unit per
consumed character) is set to the text length by `scanLineStart`. -/
def scanLineStartGo (tryP : List Char → Option (List Char × List Char)) :
    Nat → List Char → Bool → List (List Char)
  | 0, _, _ => []
  | _ + 1, [], _ => []
  | fuel + 1, c :: rest, atStart =>
    (if atStart then tryP (c :: rest) else none).elim
      (scanLineStartGo tryP fuel rest (c == '\n'))
      (fun p =>
        p.1 ::
          scanLineStartGo tryP fuel
            ((c :: rest).drop (max 1 ((c :: rest).length - p.2.length)))
            (newlineAt (c :: rest) (max 1 ((c :: rest).length - p.2.length) - 1)))

/-- Non-overlapping multiline-anchored scan over the whole text. -/
def scanLineStart (tryP : List Char → Option (List Char × List Char))
    (cs : List Char) : List (List Char) :=
  scanLineStartGo tryP cs.length cs true

/-- Fuelled scan of `re.finditer` for the unanchored function patterns: each
pattern starts with `\b` followed by a word character, so a match is
attempted exactly at positions whose preceding character is not a word
character (the start of text counts as non-word); after a match the scan
resumes past its span. -/
def scanPatGo (tryP : List Char → Option (List Char × List Char)) :
    Nat → List Char → Bool → List (List Char)
  | 0, _, _ => []
  | _ + 1, [], _ => []
  | fuel + 1, c :: rest, prevWord =>
    (if prevWord then none else tryP (c :: rest)).elim
      (scanPatGo tryP fuel rest (isWordChar c))
      (fun p =>
        p.1 ::
          scanPatGo tryP fuel
            ((c :: rest).drop (max 1 ((c :: rest).length - p.2.length)))
            (wordAt (c :: rest) (max 1 ((c :: rest).length - p.2.length) - 1)))

/-- Non-overlapping word-boundary scan over the whole text. -/
def scanPat (tryP : List Char → Option (List Char × List Char))
    (cs : List Char) : List (List Char) :=
  scanPatGo tryP cs.length cs false

/-- `extract_symbols(text)` from `doc_coverage.py`: the globals set collected
by the anchored scan, and the union of the five function-pattern scans;
Python's sets are modelled by deduplicated lists. -/
def extract_symbols (text : List Char) : List (List Char) × List (List Char) :=
  ((scanLineStart tryGlobal text).dedup,
    (scanPat tryFunctionDecl text ++ scanPat tryAssignFunction text ++
      scanPat tryAssignAsync text ++ scanPat tryAssignArrow text ++
      scanPat tryColonArrow text).dedup)

/-! ### `collect_source_files` and the report driver `main` -/

/-- The recognised source extensions of `collect_source_files`. -/
def sourceExtensions : List (List Char) :=
  [".js".toList, ".jsx".toList, ".ts".toList, ".tsx".toList]

/-- The final path component (after the last `/`), as `pathlib` names it. -/
def baseName (p : List Char) : List Char :=
  (p.reverse.takeWhile (fun c => c != '/')).reverse

/-- `PurePath.suffix` of `pathlib`: the part of the final component from its
last dot, provided that dot is neither the first nor the last character of
the component; empty otherwise. -/
def pathSuffix (p : List Char) : List Char :=
  let nm := baseName p
  match nm.reverse.findIdx? (fun c => c == '.') with
  | some j =>
    let i := nm.length - 1 - j
    if 0 < i ∧ i < nm.length - 1 then nm.drop i else []
  | none => []

/-- `collect_source_files` from `doc_coverage.py`, with the `os.walk`
enumeration abstracted as the input list of yielded file names (directory
pruning happens before this filter and does not affect it): a name is yielded
iff its `Path.suffix` is in the extension set, compared by exact character
equality. -/
def collect_source_files (files : List (List Char)) : List (List Char) :=
  files.filter (fun p => sourceExtensions.contains (pathSuffix p))

/-- A source file as `main` sees it: its relative path string and raw bytes. -/
structure ScannedFile where
  rel : List Char
  bytes : List Nat

/-- The qualified name `f"{rel}:{name}"` built by `main`. -/
def qualify (rel nm : List Char) : List Char :=
  rel ++ ':' :: nm

/-- The symbols `main` extracts from one file: the bytes are decoded with
`errors="ignore"` and passed to `extract_symbols`. -/
def file_symbols (f : ScannedFile) : List (List Char) × List (List Char) :=
  extract_symbols (read_text_ignore f.bytes)

/-- The `modules` name list of `main`: one relative path per file. -/
def modules_of (files : List ScannedFile) : List (List Char) :=
  files.map (fun f => f.rel)

/-- The `globals_names` list of `main`: every global of every file, qualified
by its file's relative path. -/
def globals_names_of (files : List ScannedFile) : List (List Char) :=
  files.flatMap (fun f => ((file_symbols f).1).map (qualify f.rel))

/-- The `functions_names` list of `main`: every function of every file,
qualified by its file's relative path. -/
def functions_names_of (files : List ScannedFile) : List (List Char) :=
  files.flatMap (fun f => ((file_symbols f).2).map (qualify f.rel))

/-- The three per-category coverage tallies `main` computes: modules, then
globals, then functions. -/
def main_tallies (files : List ScannedFile) (doc_text : List Char) :
    (Nat × Nat) × (Nat × Nat) × (Nat × Nat) :=
  (compute_coverage (modules_of files) doc_text,
    compute_coverage (globals_names_of files) doc_text,
    compute_coverage (functions_names_of files) doc_text)

/-- The overall coverage percentage of `main`:
`(overall_docged / overall_total * 100) if overall_total else 100.0`,
modelled with exact rational division. -/
def coverage_pct (files : List ScannedFile) (doc_text : List Char) : ℚ :=
  let t := main_tallies files doc_text
  let overall_docged := t.1.1 + t.2.1.1 + t.2.2.1
  let overall_total := t.1.2 + t.2.1.2 + t.2.2.2
  if overall_total = 0 then 100
  else (overall_docged : ℚ) / (overall_total : ℚ) * 100

/-! ### Concrete inputs of the claims' scenarios -/

/-- The qualified name of the C1 scenario. -/
def c1name : List Char :=
  ("bootstrap/local/sass-compiler.js:compileSCSS").toList

/-- The documentation corpus of the C1 scenario, from the repository's unit
test. -/
def c1corpus : List Char :=
  ("The loader calls compileSCSS before injectCSS runs.").toList

/-- The source text of the C3 scenario. -/
def c3text : List Char :=
  ("const topLevel = 1\nlet another = 2\nvar legacy\nfunction declared() \x7b\x7d\nconst arrow = () => \x7b\x7d").toList

/-- A one-line declaration matched both as a global and as an arrow-function
assignment. -/
def c4text : List Char :=
  ("const arrow = () => \x7b\x7d").toList

/-- A one-line declaration matched both as a global and as an async-arrow
assignment. -/
def c4btext : List Char :=
  ("var cb = async () => \x7b\x7d").toList

/-- A bare declaration keyword at the end of a line followed by a line-start
declaration: the first match's whitespace run crosses the newline and
swallows the second declaration. -/
def c9text : List Char :=
  ("const\nlet x").toList

/-- The name list of the C6 scenario. -/
def c6names : List (List Char) :=
  [("moduleA:foo").toList, ("moduleA:untracked").toList,
    ("moduleA:bar").toList, ("moduleB:baz").toList]

/-- The documentation corpus of the C6 scenario. -/
def c6corpus : List Char :=
  ("moduleA:foo moduleA:bar cables").toList

/-! ### Specification-side predicates and helper lemmas -/

/-- Specification reading of the `is_documented` contract: the corpus
contains `name` as a literal, case-sensitive occurrence delimited by a word
boundary on each side. -/
def SpecWholeWordMatch (name corpus : List Char) : Prop :=
  ∃ i, i + name.length ≤ corpus.length ∧
    (corpus.drop i).take name.length = name ∧
    boundaryAt corpus i = true ∧ boundaryAt corpus (i + name.length) = true

/-- Position `i` of `t` is a line start for the `re.MULTILINE` anchor `^`:
the start of the text or just after a newline. -/
def lineStartAt (t : List Char) (i : Nat) : Prop :=
  i = 0 ∨ t.get? (i - 1) = some '\n'

theorem isPrefixOf_eq_true_iff (l₁ l₂ : List Char) :
    l₁.isPrefixOf l₂ = true ↔
      l₁.length ≤ l₂.length ∧ l₂.take l₁.length = l₁ := by
  induction l₁ generalizing l₂ with
  | nil => simp [List.isPrefixOf]
  | cons a l ih =>
    cases l₂ with
    | nil => simp [List.isPrefixOf]
    | cons b l₂ =>
      simp only [List.isPrefixOf, Bool.and_eq_true, beq_iff_eq, ih,
        List.length_cons, List.take_succ_cons, List.cons.injEq,
        Nat.add_le_add_iff_right]
      constructor
      · rintro ⟨h1, h2, h3⟩; exact ⟨h2, h1.symm, h3⟩
      · rintro ⟨h1, h2, h3⟩; exact ⟨h2.symm, h1, h3⟩

theorem all_takeWhile (p : Char → Bool) (l : List Char) :
    (l.takeWhile p).all p = true := by
  induction l with
  | nil => rfl
  | cons a l ih =>
    by_cases h : p a = true <;>
      simp [List.takeWhile_cons, h, ih]

theorem head_dropWhile_false (p : Char → Bool) (l : List Char) (d : Char)
    (h : (l.dropWhile p).head? = some d) : p d = false := by
  induction l with
  | nil => simp [List.dropWhile] at h
  | cons a l ih =>
    by_cases ha : p a = true
    · rw [List.dropWhile_cons_of_pos ha] at h
      exact ih h
    · rw [List.dropWhile_cons_of_neg ha] at h
      simp only [List.head?_cons, Option.some.injEq] at h
      subst h
      exact Bool.eq_false_iff.mpr ha

theorem matchLit_eq_some (l : List Char) :
    ∀ (cs r : List Char), matchLit l cs = some r → cs = l ++ r := by
  induction l with
  | nil =>
    intro cs r h
    simp only [matchLit, Option.some.injEq] at h
    simp [h]
  | cons a l ih =>
    intro cs r h
    cases cs with
    | nil => simp [matchLit] at h
    | cons b cs' =>
      simp only [matchLit] at h
      by_cases hba : (b == a) = true
      · rw [if_pos hba] at h
        have hba' : b = a := beq_iff_eq.mp hba
        subst hba'
        simpa using ih cs' r h
      · rw [if_neg hba] at h
        exact absurd h (by simp)

theorem skipSpaces1_eq_some (cs r : List Char) (h : skipSpaces1 cs = some r) :
    ∃ sp, sp ≠ [] ∧ sp.all pyIsSpace = true ∧ cs = sp ++ r := by
  cases cs with
  | nil => simp [skipSpaces1] at h
  | cons c rest =>
    simp only [skipSpaces1] at h
    by_cases hc : pyIsSpace c = true
    · rw [if_pos hc] at h
      simp only [Option.some.injEq] at h
      refine ⟨c :: rest.takeWhile pyIsSpace, by simp, ?_, ?_⟩
      · simp [List.all_cons, hc, all_takeWhile]
      · rw [← h]
        simp [List.takeWhile_append_dropWhile]
    · rw [if_neg hc] at h
      exact absurd h (by simp)

theorem takeIdent_eq_some (cs nm r : List Char)
    (h : takeIdent cs = some (nm, r)) :
    (∃ c w, nm = c :: w ∧ isIdentStart c = true ∧ w.all isWordChar = true) ∧
      cs = nm ++ r ∧ (∀ d, r.head? = some d → isWordChar d = false) := by
  cases cs with
  | nil => simp [takeIdent] at h
  | cons c rest =>
    simp only [takeIdent] at h
    by_cases hc : isIdentStart c = true
    · rw [if_pos hc] at h
      simp only [Option.some.injEq, Prod.mk.injEq] at h
      obtain ⟨hnm, hr⟩ := h
      subst hnm; subst hr
      refine ⟨⟨c, rest.takeWhile isWordChar, rfl, hc, all_takeWhile _ _⟩,
        ?_, ?_⟩
      · simp [List.takeWhile_append_dropWhile]
      · intro d hd
        exact head_dropWhile_false _ _ _ hd
    · rw [if_neg hc] at h
      exact absurd h (by simp)

theorem tryGlobal_shape (cs nm r : List Char)
    (h : tryGlobal cs = some (nm, r)) :
    ∃ kw sp, kw ∈ kwDecls ∧ sp ≠ [] ∧ sp.all pyIsSpace = true ∧
      (∃ c w, nm = c :: w ∧ isIdentStart c = true ∧ w.all isWordChar = true) ∧
      (∀ d, r.head? = some d → isWordChar d = false) ∧
      cs = kw ++ (sp ++ (nm ++ r)) := by
  unfold tryGlobal at h
  have main :
      ∀ kw r1, kw ∈ kwDecls → matchLit kw cs = some r1 →
        (match skipSpaces1 r1 with
          | none => none
          | some r2 => takeIdent r2) = some (nm, r) →
        ∃ kw sp, kw ∈ kwDecls ∧ sp ≠ [] ∧ sp.all pyIsSpace = true ∧
          (∃ c w, nm = c :: w ∧ isIdentStart c = true ∧
            w.all isWordChar = true) ∧
          (∀ d, r.head? = some d → isWordChar d = false) ∧
          cs = kw ++ (sp ++ (nm ++ r)) := by
    intro kw r1 hkw h1 h2
    rcases hs : skipSpaces1 r1 with _ | r2
    · rw [hs] at h2; exact absurd h2 (by simp)
    · rw [hs] at h2
      obtain ⟨sp, hsp1, hsp2, hsp3⟩ := skipSpaces1_eq_some r1 r2 hs
      obtain ⟨hid, hr2, hmax⟩ := takeIdent_eq_some r2 nm r h2
      exact ⟨kw, sp, hkw, hsp1, hsp2, hid, hmax,
        by rw [matchLit_eq_some kw cs r1 h1, hsp3, hr2]⟩
  rcases h1 : matchLit ("const".toList) cs with _ | r1
  · rcases h2 : matchLit ("let".toList) cs with _ | r1
    · rcases h3 : matchLit ("var".toList) cs with _ | r1
      · rw [h1, h2, h3] at h
        exact absurd h (by simp)
      · rw [h1, h2, h3] at h
        exact main _ r1 (by simp [kwDecls]) h3 h
    · rw [h1, h2] at h
      exact main _ r1 (by simp [kwDecls]) h2 h
  · rw [h1] at h
    exact main _ r1 (by simp [kwDecls]) h1 h

theorem scanLineStartGo_sound
    (tryP : List Char → Option (List Char × List Char)) :
    ∀ (fuel : Nat) (cs : List Char) (b : Bool) (nm : List Char),
      nm ∈ scanLineStartGo tryP fuel cs b →
      ∃ i r, (i = 0 ∧ b = true ∨ i ≠ 0 ∧ cs.get? (i - 1) = some '\n') ∧
        tryP (cs.drop i) = some (nm, r) := by
  intro fuel
  induction fuel with
  | zero => intro cs b nm h; simp [scanLineStartGo] at h
  | succ n ih =>
    intro cs b nm h
    cases cs with
    | nil => simp [scanLineStartGo] at h
    | cons c rest =>
      simp only [scanLineStartGo] at h
      rcases hg : (if b then tryP (c :: rest) else none) with _ | p
      · rw [hg] at h
        simp only [Option.elim_none] at h
        obtain ⟨i', r, hgood, htry⟩ := ih rest (c == '\n') nm h
        refine ⟨i' + 1, r, ?_, ?_⟩
        · rcases hgood with ⟨hi0, hb'⟩ | ⟨hne, hget⟩
          · subst hi0
            exact Or.inr ⟨by omega, by simpa using beq_iff_eq.mp hb'⟩
          · obtain ⟨j, rfl⟩ := Nat.exists_eq_succ_of_ne_zero hne
            refine Or.inr ⟨by omega, ?_⟩
            simpa using hget
        · simpa [List.drop_succ_cons] using htry
      · rw [hg] at h
        simp only [Option.elim_some] at h
        have hb : b = true := by
          cases b
          · simp at hg
          · rfl
        have htryp : tryP (c :: rest) = some p := by
          rw [← hg, if_pos hb]
        obtain ⟨name, rest2⟩ := p
        rcases List.mem_cons.mp h with rfl | htl
        · exact ⟨0, rest2, Or.inl ⟨rfl, hb⟩, by simpa using htryp⟩
        · obtain ⟨i', r, hgood, htry⟩ := ih _ _ nm htl
          have hk1 : 1 ≤ max 1 ((c :: rest).length - rest2.length) :=
            le_max_left 1 _
          refine ⟨max 1 ((c :: rest).length - rest2.length) + i', r, ?_, ?_⟩
          · rcases hgood with ⟨hi0, hb'⟩ | ⟨hne, hget⟩
            · subst hi0
              refine Or.inr ⟨by omega, ?_⟩
              have hb2 : (c :: rest).get?
                  (max 1 ((c :: rest).length - rest2.length) - 1) =
                    some '\n' := by
                simpa [newlineAt] using hb'
              simpa using hb2
            · refine Or.inr ⟨by omega, ?_⟩
              rw [List.get?_eq_getElem?] at hget ⊢
              rw [List.getElem?_drop] at hget
              have harith :
                  max 1 ((c :: rest).length - rest2.length) + i' - 1 =
                    max 1 ((c :: rest).length - rest2.length) + (i' - 1) := by
                omega
              rw [harith]
              exact hget
          · rw [← List.drop_drop]
            exact htry

/-! ### Claim theorems -/

/-- C1: refuted by the code.  `is_documented` searches for the full escaped
qualified name between word boundaries and has no fallback to the bare
trailing token, so on the scenario input that the spec and the repository's
own unit test `test_symbol_detection_receives_bare_function_reference`
require to succeed it returns false, even though the corpus does contain the
bare token `compileSCSS` as a whole word. -/
theorem c1_qualified_lookup_fails :
    is_documented c1name c1corpus = false ∧
      is_documented (("compileSCSS").toList) c1corpus = true := by
  constructor
  · decide
  · decide

/-- C2: `is_documented(name, corpus)` returns true iff the corpus is
non-empty and contains `name` as a case-sensitive, literal (regex-escaped)
whole-word occurrence, word-boundary-delimited on both sides; on the empty
corpus it is false without attempting any match. -/
theorem c2_is_documented_iff (name corpus : List Char) :
    is_documented name corpus = true ↔
      corpus ≠ [] ∧ SpecWholeWordMatch name corpus := by
  by_cases hc : corpus = []
  · subst hc
    simp [is_documented, SpecWholeWordMatch]
  · have hne : corpus.isEmpty = false := by
      simpa [List.isEmpty_iff] using hc
    simp only [is_documented, hne, Bool.false_eq_true, if_false,
      List.any_eq_true, List.mem_range, wholeWordAt, Bool.and_eq_true,
      isPrefixOf_eq_true_iff, SpecWholeWordMatch]
    constructor
    · rintro ⟨i, hi, ⟨⟨hlen, htake⟩, hb1⟩, hb2⟩
      refine ⟨hc, i, ?_, htake, hb1, hb2⟩
      rw [List.length_drop] at hlen
      omega
    · rintro ⟨-, i, hile, htake, hb1, hb2⟩
      refine ⟨i, by omega, ⟨⟨?_, htake⟩, hb1⟩, hb2⟩
      rw [List.length_drop]
      omega

/-- C3: corrected.  On the scenario text the globals set is not
`{topLevel, another, legacy}`: the line `const arrow = () => \x7b\x7d` also
matches the globals rule, so `arrow` is a fourth member. -/
theorem c3_counterexample :
    (("arrow").toList ∈ (extract_symbols c3text).1) ∧
      (("arrow").toList ∉
        [("topLevel").toList, ("another").toList, ("legacy").toList]) := by
  constructor
  · decide
  · decide

/-- C3 (amended): the scenario text yields globals exactly
`{topLevel, another, legacy, arrow}` and a functions set containing
`declared` and `arrow`. -/
theorem c3_amended_scenario :
    (extract_symbols c3text).1 =
        [("topLevel").toList, ("another").toList, ("legacy").toList,
          ("arrow").toList] ∧
      (("declared").toList ∈ (extract_symbols c3text).2) ∧
      (("arrow").toList ∈ (extract_symbols c3text).2) := by
  refine ⟨by decide, by decide, by decide⟩

/-- C4: corrected.  The two sets returned by `extract_symbols` are not
always disjoint: `const arrow = () => \x7b\x7d` puts `arrow` in the globals
set (line-start `const` rule) and in the functions set (arrow-assignment
rule) at once. -/
theorem c4_counterexample :
    (("arrow").toList ∈ (extract_symbols c4text).1) ∧
      (("arrow").toList ∈ (extract_symbols c4text).2) := by
  constructor
  · decide
  · decide

/-- C4 (amended): the globals and functions sets may overlap — a bare name
matched both by the line-start declaration rule and by a function rule is a
member of both sets, with no cross-deduplication. -/
theorem c4_amended_overlap :
    (("cb").toList ∈ (extract_symbols c4btext).1) ∧
      (("cb").toList ∈ (extract_symbols c4btext).2) := by
  constructor
  · decide
  · decide

/-- C5: corrected.  Decode faults are not uniformly replaced and recovered:
`load_docs` reads markdown strictly, so an invalid byte surfaces the fault
to the caller, while `main` reads source files with `errors="ignore"`, which
drops invalid bytes without substituting any replacement character. -/
theorem c5_counterexample :
    load_docs ⟨true, [[255]]⟩ = Except.error () ∧
      read_text_ignore [255] = [] :=
  ⟨rfl, rfl⟩

/-- C5 (amended): a source-file read (`errors="ignore"`) always yields a
text, dropping invalid bytes with no replacement character, while the strict
markdown read fails exactly when the byte sequence has a decode fault, so a
faulty markdown file makes `load_docs` surface the error. -/
theorem c5_amended_behaviour :
    (∀ bs : List Nat,
      read_text_strict bs = none ↔ (utf8Units bs).contains none = true) ∧
      read_text_ignore [97, 255, 98] = [('a' : Char), 'b'] ∧
      load_docs ⟨true, [[255]]⟩ = Except.error () ∧
      load_docs ⟨true, [[104, 105]]⟩ = Except.ok [('h' : Char), 'i'] := by
  refine ⟨?_, rfl, rfl, rfl⟩
  intro bs
  unfold read_text_strict
  by_cases h : (utf8Units bs).contains none = true
  · simp [h]
  · simp [h]

/-- C6: `compute_coverage` deduplicates its input into a set, so it returns
the pair (number of distinct documented names, number of distinct names) —
`(0, 0)` for an empty set, duplicates never inflating either count — and on
the scenario names and corpus it returns `(2, 4)`. -/
theorem c6_compute_coverage :
    (∀ (names : List (List Char)) (corpus : List Char),
      compute_coverage names corpus =
        ((names.toFinset.filter
            (fun n => is_documented n corpus = true)).card,
          names.toFinset.card)) ∧
      compute_coverage c6names c6corpus = (2, 4) := by
  constructor
  · intro names corpus
    have hdedup : names.dedup.toFinset = names.toFinset := by
      ext a
      simp [List.mem_dedup]
    have hnd : names.dedup.Nodup := List.nodup_dedup names
    by_cases h : names.dedup.isEmpty = true
    · have hnil : names.dedup = [] := by
        simpa [List.isEmpty_iff] using h
      have hempty : names.toFinset = ∅ := by
        rw [← hdedup, hnil]
        rfl
      simp [compute_coverage, hnil, hempty]
    · have hne : names.dedup.isEmpty = false := by
        simpa using h
      have hfin :
          names.toFinset.filter (fun n => is_documented n corpus = true) =
            (names.dedup.filter
              (fun n => is_documented n corpus)).toFinset := by
        ext a
        simp [List.mem_filter, List.mem_dedup]
      have hfnd :
          (names.dedup.filter (fun n => is_documented n corpus)).Nodup :=
        hnd.filter _
      simp only [compute_coverage, hne, Bool.false_eq_true, if_false]
      refine Prod.ext ?_ ?_
      · rw [hfin, List.toFinset_card_of_nodup hfnd,
          ← List.countP_eq_length_filter]
      · rw [List.card_toFinset]
  · decide

/-- C7: when the documentation root does not exist, `load_docs` returns the
empty string without raising, and `is_documented` reports every name as
undocumented against that empty corpus. -/
theorem c7_missing_doc_root (fs : List (List Nat)) (name : List Char) :
    load_docs ⟨false, fs⟩ = Except.ok [] ∧
      is_documented name [] = false :=
  ⟨rfl, rfl⟩

/-- C8: with zero matching source files all three tallies are `(0, 0)` and
the overall coverage percentage is exactly 100, for every corpus. -/
theorem c8_zero_files (doc_text : List Char) :
    main_tallies [] doc_text = ((0, 0), (0, 0), (0, 0)) ∧
      coverage_pct [] doc_text = 100 :=
  ⟨rfl, rfl⟩

/-- C10: `collect_source_files` yields a name only when its `Path.suffix` is
one of `.js`, `.jsx`, `.ts`, `.tsx` under exact character comparison; names
whose extension differs only by letter case, such as `APP.JS` or `main.Ts`,
are never yielded. -/
theorem c10_extension_filter :
    (∀ files : List (List Char),
      (collect_source_files files).all
        (fun p => sourceExtensions.contains (pathSuffix p)) = true) ∧
      collect_source_files
          [("APP.JS").toList, ("main.Ts").toList, ("app.js").toList] =
        [("app.js").toList] := by
  constructor
  · intro files
    rw [List.all_eq_true]
    intro p hp
    exact (List.mem_filter.mp hp).2
  · decide

/-- C9: corrected.  In `const\nlet x` the second line is an unindented
`let` declaration (position 6 is a line start where the declaration matcher
captures `x`), yet `x` is not in the globals set: the first match's
whitespace run crosses the newline, captures `let` as the identifier, and
the non-overlapping scan resumes past the second line's keyword. -/
theorem c9_counterexample :
    lineStartAt c9text 6 ∧
      tryGlobal (c9text.drop 6) = some (("x").toList, []) ∧
      (("x").toList ∉ (extract_symbols c9text).1) ∧
      (("let").toList ∈ (extract_symbols c9text).1) := by
  refine ⟨Or.inr (by decide), by decide, by decide, by decide⟩

/-- C9 (amended): every global captured by `extract_symbols` arises from a
match beginning at a line start (never at an indented position) consisting
of `const`, `let` or `var`, one or more whitespace characters (which may
cross a line break), and then the captured name — the first maximal
identifier after that whitespace; because the scan is non-overlapping, a
line-start declaration lying inside an earlier match's span does not
contribute. -/
theorem c9_amended_sound (t nm : List Char)
    (h : nm ∈ (extract_symbols t).1) :
    ∃ i kw sp r, lineStartAt t i ∧ kw ∈ kwDecls ∧ sp ≠ [] ∧
      sp.all pyIsSpace = true ∧
      (∃ c w, nm = c :: w ∧ isIdentStart c = true ∧
        w.all isWordChar = true) ∧
      (∀ d, r.head? = some d → isWordChar d = false) ∧
      t.drop i = kw ++ (sp ++ (nm ++ r)) := by
  have hmem : nm ∈ scanLineStartGo tryGlobal t.length t true := by
    simpa [extract_symbols, scanLineStart, List.mem_dedup] using h
  obtain ⟨i, r, hgood, htry⟩ :=
    scanLineStartGo_sound tryGlobal t.length t true nm hmem
  obtain ⟨kw, sp, hkw, hsp1, hsp2, hid, hmax, heq⟩ :=
    tryGlobal_shape (t.drop i) nm r htry
  refine ⟨i, kw, sp, r, ?_, hkw, hsp1, hsp2, hid, hmax, heq⟩
  rcases hgood with ⟨hi0, -⟩ | ⟨-, hget⟩
  · exact Or.inl hi0
  · exact Or.inr hget

/-- C9 (witness): the amended soundness theorem instantiated on the text
`var x = 1`, whose single global `x` indeed decomposes as keyword,
whitespace and identifier at a line start. -/
theorem c9_amended_witness :
    (("x").toList ∈ (extract_symbols (("var x = 1").toList)).1) ∧
      (∃ i kw sp r, lineStartAt (("var x = 1").toList) i ∧ kw ∈ kwDecls ∧
        sp ≠ [] ∧ sp.all pyIsSpace = true ∧
        (∃ c w, ("x").toList = c :: w ∧ isIdentStart c = true ∧
          w.all isWordChar = true) ∧
        (∀ d, r.head? = some d → isWordChar d = false) ∧
        ((("var x = 1").toList)).drop i =
          kw ++ (sp ++ ((("x").toList) ++ r))) :=
  ⟨by decide, c9_amended_sound _ _ (by decide)⟩

end DocCoverage
